import Mathlib

/-!
Shallow embedding of the log-scanning and command-execution logic of
`atk-executor.js` (M365 Agent Toolkit codespace executor).

Strings are modelled as Lean `String`/`List Char`.  A JavaScript value that
may be `null`/`undefined` is modelled as an `Option`.  The JavaScript regular
expressions used by the source are simple enough to be given direct
functional semantics: each pattern gets a `...Here` function deciding whether
the pattern matches at the start of a suffix (returning the relevant match or
capture), and `scanList` implements the leftmost-match search performed by
`String.prototype.match`.
-/

/-- JavaScript whitespace class: the characters matched by `\s` (and removed
by `trim`): WhiteSpace plus LineTerminator. -/
def isJsWs (c : Char) : Bool :=
  c = ' ' || c = '\t' || c = '\n' || c = '\r' || c = '\x0b' || c = '\x0c' ||
  c = '\u00A0' || c = '\u1680' || ('\u2000' ≤ c && c ≤ '\u200A') ||
  c = '\u2028' || c = '\u2029' || c = '\u202F' || c = '\u205F' ||
  c = '\u3000' || c = '\uFEFF'

/-- JavaScript line terminators: the characters NOT matched by `.`
(without the `s` flag). -/
def isLineTerm (c : Char) : Bool :=
  c = '\n' || c = '\r' || c = '\u2028' || c = '\u2029'

/-- ASCII lower-casing, the case folding relevant to the `i` flag on the
ASCII-only literals `port ` and `server` (a non-ASCII character never
canonicalizes onto an ASCII one in a non-unicode JavaScript regex). -/
def lowerAscii (c : Char) : Char :=
  if 'A' ≤ c && c ≤ 'Z' then Char.ofNat (c.toNat + 32) else c

/-- Case-insensitive (ASCII) literal match at the start of a list: the
literal is given in lower case. -/
def ciStartsWith : List Char → List Char → Bool
  | [], _ => true
  | _ :: _, [] => false
  | a :: as, c :: cs => (lowerAscii c = a) && ciStartsWith as cs

/-- Leftmost-match search: try the matcher at every suffix of the text, left
to right, returning the first success.  This is how `String.prototype.match`
scans start positions. -/
def scanList {β : Type} (f : List Char → Option β) : List Char → Option β
  | [] => f []
  | c :: cs =>
    match f (c :: cs) with
    | some b => some b
    | none => scanList f cs

/-- Position-indexed reformulation of the leftmost match, used by the claim
statements: the first start index (0, 1, ...) at which the matcher
succeeds. -/
def findFirstMatch {β : Type} (f : List Char → Option β) (l : List Char) : Option β :=
  (List.range (l.length + 1)).findSome? (fun i => f (l.drop i))

/-! ### extractOAuthUrl (source lines 25-41) -/

/-- Executable test that `pat` occurs as a contiguous run inside a list. -/
def containsSeq (pat : List Char) : List Char → Bool
  | [] => pat.isPrefixOf []
  | c :: cs => pat.isPrefixOf (c :: cs) || containsSeq pat cs

/-- The literal host part of the primary OAuth URL pattern
`https:\/\/login\.microsoftonline\.com\/[^\s]+`. -/
def loginHostChars : List Char := "https://login.microsoftonline.com/".toList

/-- Match of the primary pattern at the start of a suffix: the literal host
followed by at least one non-whitespace character, extended greedily. -/
def oauthPrimaryHere (l : List Char) : Option (List Char) :=
  if loginHostChars.isPrefixOf l then
    if ((l.drop loginHostChars.length).takeWhile (fun c => !isJsWs c)).isEmpty then none
    else some (loginHostChars ++ (l.drop loginHostChars.length).takeWhile (fun c => !isJsWs c))
  else none

/-- Match of the fallback pattern `https:\/\/[^\s]*login[^\s]*` at the start
of a suffix: `https://` followed by a run of non-whitespace characters that
contains the word `login`; the match is the whole run (both stars are
resolved against the same maximal non-whitespace run). -/
def oauthAltHere (l : List Char) : Option (List Char) :=
  if ("https://".toList).isPrefixOf l then
    if containsSeq ("login".toList)
        ((l.drop ("https://".toList).length).takeWhile (fun c => !isJsWs c)) then
      some ("https://".toList ++ (l.drop ("https://".toList).length).takeWhile (fun c => !isJsWs c))
    else none
  else none

/-- `extractOAuthUrl` from the source: `null` and the empty string (both
falsy) yield `null`; otherwise the primary pattern is tried, then the
fallback, and a missing match yields `null`. -/
def extractOAuthUrl (output : Option String) : Option String :=
  match output with
  | none => none
  | some s =>
    if s.toList.isEmpty then none
    else
      match scanList oauthPrimaryHere s.toList with
      | some m => some (String.mk m)
      | none =>
        match scanList oauthAltHere s.toList with
        | some m => some (String.mk m)
        | none => none

/-! ### extractAuthPort (source lines 46-68) -/

/-- Numeric value of a digit string, as produced by `parseInt` on the digit
captures below. -/
def digitsToNat (ds : List Char) : Nat :=
  ds.foldl (fun n c => n * 10 + (c.toNat - 48)) 0

/-- The range test of the source: `port > 1000 && port < 65535`. -/
def portInRange (p : Nat) : Bool := 1000 < p && p < 65535

/-- Match of `localhost:(\d+)` at the start of a suffix, returning the
capture: the maximal digit run after the literal. -/
def localhostHere (l : List Char) : Option (List Char) :=
  if ("localhost:".toList).isPrefixOf l then
    let ds := (l.drop 10).takeWhile Char.isDigit
    if ds.isEmpty then none else some ds
  else none

/-- Match of `127\.0\.0\.1:(\d+)` at the start of a suffix. -/
def loopbackHere (l : List Char) : Option (List Char) :=
  if ("127.0.0.1:".toList).isPrefixOf l then
    let ds := (l.drop 10).takeWhile Char.isDigit
    if ds.isEmpty then none else some ds
  else none

/-- Match of `port (\d+)` with the `i` flag at the start of a suffix. -/
def portWordHere (l : List Char) : Option (List Char) :=
  if ciStartsWith ("port ".toList) l then
    let ds := (l.drop 5).takeWhile Char.isDigit
    if ds.isEmpty then none else some ds
  else none

/-- The `.*?(\d+)` tail of the `server` pattern: skip non-digit characters
(failing on a line terminator, which `.` does not match) up to the first
digit, then capture the maximal digit run. -/
def digitsAfterDotStar : List Char → Option (List Char)
  | [] => none
  | c :: cs =>
    if c.isDigit then some ((c :: cs).takeWhile Char.isDigit)
    else if isLineTerm c then none
    else digitsAfterDotStar cs

/-- Match of `server.*?(\d+)` with the `i` flag at the start of a suffix. -/
def serverHere (l : List Char) : Option (List Char) :=
  if ciStartsWith ("server".toList) l then digitsAfterDotStar (l.drop 6)
  else none

/-- The `patterns` array of the source, in order. -/
def atkPortMatchers : List (List Char → Option (List Char)) :=
  [localhostHere, loopbackHere, portWordHere, serverHere]

/-- The `for (const pattern of patterns)` loop of the source: for each
pattern take its first match; if the capture parses into the open interval
(1000, 65535) return it, otherwise continue; after the loop return 3978. -/
def goPatterns (l : List Char) : List (List Char → Option (List Char)) → Nat
  | [] => 3978
  | f :: fs =>
    match scanList f l with
    | some ds => if portInRange (digitsToNat ds) then digitsToNat ds else goPatterns l fs
    | none => goPatterns l fs

/-- `extractAuthPort` from the source: `null` and the empty string (both
falsy) yield the default 3978; otherwise the pattern loop runs. -/
def extractAuthPort (output : Option String) : Nat :=
  match output with
  | none => 3978
  | some s => if s.toList.isEmpty then 3978 else goPatterns s.toList atkPortMatchers

/-- Spec-side reformulation of the pattern loop, over a list of first-match
captures: the first capture whose value lies in the open interval
(1000, 65535), if any. -/
def firstPortInRange : List (Option (List Char)) → Option Nat
  | [] => none
  | none :: rest => firstPortInRange rest
  | some ds :: rest =>
    if portInRange (digitsToNat ds) then some (digitsToNat ds)
    else firstPortInRange rest

/-! ### generatePortForwardingUrl (source lines 163-178) -/

/-- The two environment variables read by `generatePortForwardingUrl`:
`CODESPACE_NAME` and `GITHUB_CODESPACES_PORT_FORWARDING_DOMAIN`.  `none`
models an unset variable. -/
structure AtkEnv where
  codespaceName : Option String
  portForwardingDomain : Option String
deriving DecidableEq

/-- JavaScript truthiness of an environment variable: unset (`undefined`)
and the empty string are both falsy. -/
def jsTruthy (o : Option String) : Bool :=
  match o with
  | none => false
  | some s => !s.isEmpty

/-- `generatePortForwardingUrl` from the source, with the environment passed
explicitly. -/
def generatePortForwardingUrl (env : AtkEnv) (port : Nat) : String :=
  if jsTruthy env.codespaceName then
    "https://" ++ env.codespaceName.getD "" ++ "-" ++ toString port ++ ".app.github.dev"
  else if jsTruthy env.portForwardingDomain then
    "https://" ++ env.portForwardingDomain.getD "" ++ "-" ++ toString port ++ ".githubpreview.dev"
  else
    "http://localhost:" ++ toString port

/-! ### executeCommand / executeCommandStreaming (source lines 73-158) -/

/-- The result object both executors produce: `success`, trimmed or raw
output texts, and the exit code (`none` models a `null` exit code, possible
when the child is killed by a signal). -/
structure CommandResult where
  success : Bool
  stdout : String
  stderr : String
  exitCode : Option Int
deriving DecidableEq

/-- JavaScript `String.prototype.trim`: strip WhiteSpace and LineTerminator
characters from both ends. -/
def jsTrim (s : String) : String :=
  String.mk (((s.toList.dropWhile isJsWs).reverse.dropWhile isJsWs).reverse)

/-- JavaScript `a || b` on an optional string `a`: the empty string and
`undefined` both fall through to the default. -/
def jsOrStr (o : Option String) (d : String) : String :=
  match o with
  | none => d
  | some s => if s.isEmpty then d else s

/-- JavaScript `a || b` on an optional exit code: `undefined` and `0` are
falsy and fall through to the default. -/
def jsOrCode (o : Option Int) (d : Int) : Int :=
  match o with
  | none => d
  | some c => if c = 0 then d else c

/-- Outcome of the promisified `exec` call inside `executeCommand`: either a
fulfilled `\x7bstdout, stderr\x7d`, or a rejection carrying a message and
whatever partial streams and code-like field the error object exposes. -/
inductive ExecOutcome where
  | succeeded (stdout stderr : String)
  | failed (message : String) (stdout? stderr? : Option String) (code? : Option Int)
deriving DecidableEq

/-- `executeCommand` from the source, as a function of the `exec` outcome:
the `try` branch trims and reports success; the `catch` branch always
returns normally with `success := false`, stderr defaulted to the error
message, and exit code defaulted to 1. -/
def executeCommand (o : ExecOutcome) : CommandResult :=
  match o with
  | .succeeded out err =>
    { success := true, stdout := jsTrim out, stderr := jsTrim err, exitCode := some 0 }
  | .failed msg out? err? code? =>
    { success := false
      stdout := jsOrStr out? ""
      stderr := jsOrStr err? msg
      exitCode := some (jsOrCode code? 1) }

/-- Terminal event of the spawned child inside `executeCommandStreaming`:
either the `close` event with an exit code (or `null`) and the accumulated
output chunks, or the `error` event with a message and the chunks
accumulated so far. -/
inductive ChildOutcome where
  | closed (code : Option Int) (outChunks errChunks : List String)
  | errored (message : String) (outChunks errChunks : List String)
deriving DecidableEq

/-- `executeCommandStreaming` from the source, as a function of the terminal
child event.  `Except.ok` models a resolved promise, `Except.error` a
rejected one: the `close` handler resolves with trimmed accumulated streams
and `success := (code === 0)`; the `error` handler REJECTS with a
`success := false` object carrying the raw accumulated stdout. -/
def executeCommandStreaming (o : ChildOutcome) : Except CommandResult CommandResult :=
  match o with
  | .closed code outs errs =>
    .ok { success := code = some 0
          stdout := jsTrim (String.join outs)
          stderr := jsTrim (String.join errs)
          exitCode := code }
  | .errored msg outs _ =>
    .error { success := false
             stdout := String.join outs
             stderr := msg
             exitCode := some 1 }

/-- Whether a promise-modelling `Except` is a resolution. -/
def isResolved {α β : Type} (e : Except α β) : Bool :=
  match e with
  | .ok _ => true
  | .error _ => false

/-! ### Driving sequence, step 6 (source lines 290-291, 310-357) -/

/-- `new Date().toISOString().replace(/[:.]/g, '-')`: every colon and period
of the timestamp is replaced by a hyphen. -/
def sanitizeTimestamp (ts : String) : String :=
  String.mk (ts.toList.map (fun c => if c = ':' || c = '.' then '-' else c))

/-- The archival log path `path.join(LOGS_PATH, auth-<timestamp>.log)` built
at source line 291. -/
def archiveLogPath (logsPath ts : String) : String :=
  logsPath ++ "/auth-" ++ sanitizeTimestamp ts ++ ".log"

/-- Outcome of `fs.readFile` on the auth log. -/
inductive LogReadOutcome where
  | ok (content : String)
  | err (message : String)
deriving DecidableEq

/-- Observable result of step 6 of `testATKExecution`: either an OAuth URL
was extracted (and the log was archived at the given path), or the log was
read but held no OAuth URL (no archival copy), or the read failed (a process
diagnostic is run instead). -/
inductive AuthLogStepResult where
  | extracted (oauthUrl : String) (authPort : Nat) (publicAuthUrl : String)
      (copiedTo : String)
  | noUrlFound (authPort : Nat)
  | readFailed (ranDiagnostic : Bool)
deriving DecidableEq

/-- Step 6 of `testATKExecution` (read the auth log, extract URL and port,
print, and archive the log), as a function of the read outcome: the
`fs.copyFile` call at line 341 sits inside `if (oauthUrl) \x7b ... \x7d` and
runs only when a URL was found. -/
def authLogStep (env : AtkEnv) (logsPath ts : String) (r : LogReadOutcome) :
    AuthLogStepResult :=
  match r with
  | .ok content =>
    match extractOAuthUrl (some content) with
    | some u =>
      .extracted u (extractAuthPort (some content))
        (generatePortForwardingUrl env (extractAuthPort (some content)))
        (archiveLogPath logsPath ts)
    | none => .noUrlFound (extractAuthPort (some content))
  | .err _ => .readFailed true

/-! ### Leftmost-match machinery -/

theorem scanList_eq_findFirstMatch {β : Type} (f : List Char → Option β) :
    ∀ l, scanList f l = findFirstMatch f l := by
  intro l
  induction l with
  | nil =>
    have h0 : List.range (List.length ([] : List Char) + 1) = [0] := rfl
    unfold findFirstMatch
    rw [h0, List.findSome?_cons]
    cases hf : f [] <;> simp [scanList, hf]
  | cons c cs ih =>
    have h1 : List.range ((c :: cs).length + 1)
        = 0 :: (List.range (cs.length + 1)).map Nat.succ := by
      simp [List.range_succ_eq_map]
    unfold findFirstMatch
    rw [h1, List.findSome?_cons, List.findSome?_map]
    have h2 : ((fun i => f ((c :: cs).drop i)) ∘ Nat.succ) = fun i => f (cs.drop i) := by
      funext i
      simp
    rw [h2, ← findFirstMatch, ← ih]
    cases hf : f (c :: cs) <;> simp [scanList, hf]

theorem goPatterns_eq_firstPortInRange (l : List Char) :
    ∀ fs, goPatterns l fs = (firstPortInRange (fs.map (fun f => scanList f l))).getD 3978 := by
  intro fs
  induction fs with
  | nil => rfl
  | cons f fs ih =>
    cases hf : scanList f l with
    | none => simp [goPatterns, firstPortInRange, hf, ih]
    | some ds =>
      cases hp : portInRange (digitsToNat ds) with
      | true => simp [goPatterns, firstPortInRange, hf, hp]
      | false => simp [goPatterns, firstPortInRange, hf, hp, ih]

theorem goPatterns_default_or_inRange (l : List Char) :
    ∀ fs, goPatterns l fs = 3978 ∨ portInRange (goPatterns l fs) = true := by
  intro fs
  induction fs with
  | nil => exact Or.inl rfl
  | cons f fs ih =>
    cases hf : scanList f l with
    | none => simpa [goPatterns, hf] using ih
    | some ds =>
      cases hp : portInRange (digitsToNat ds) with
      | true => exact Or.inr (by simp [goPatterns, hf, hp])
      | false => simpa [goPatterns, hf, hp] using ih

theorem extractAuthPort_some (s : String) :
    extractAuthPort (some s) =
      (firstPortInRange (atkPortMatchers.map (fun f => scanList f s.toList))).getD 3978 := by
  obtain ⟨l⟩ := s
  cases l with
  | nil => decide
  | cons c cs =>
    show goPatterns (c :: cs) atkPortMatchers = _
    exact goPatterns_eq_firstPortInRange (c :: cs) atkPortMatchers

/-- Claim C9: for every input (including a null one), the extracted port is
strictly between 1000 and 65535: a successful capture is range-checked and
the default 3978 itself lies in the interval. -/
theorem extractAuthPort_always_in_range (o : Option String) :
    1000 < extractAuthPort o ∧ extractAuthPort o < 65535 := by
  have hdef : 1000 < 3978 ∧ 3978 < 65535 := by decide
  match o with
  | none => exact hdef
  | some s =>
    obtain ⟨l⟩ := s
    cases l with
    | nil => exact hdef
    | cons c cs =>
      have hgo : extractAuthPort (some (String.mk (c :: cs))) =
          goPatterns (c :: cs) atkPortMatchers := rfl
      rw [hgo]
      rcases goPatterns_default_or_inRange (c :: cs) atkPortMatchers with h | h
      · rw [h]; exact hdef
      · simpa [portInRange, Bool.and_eq_true, decide_eq_true_iff] using h

/-- Claim C1: `extractAuthPort` tries the four patterns `localhost:(\d+)`,
`127\.0\.0\.1:(\d+)`, `port (\d+)` (case-insensitive) and `server.*?(\d+)`
(case-insensitive, lazy) in exactly that order; the first pattern whose
first (leftmost) match captures a number strictly between 1000 and 65535
determines the result, and otherwise the default 3978 is returned; in
particular the out-of-range text `port 99999` yields 3978. -/
theorem extractAuthPort_pattern_priority (s : String) :
    extractAuthPort (some s) =
      (firstPortInRange
        [findFirstMatch localhostHere s.toList,
         findFirstMatch loopbackHere s.toList,
         findFirstMatch portWordHere s.toList,
         findFirstMatch serverHere s.toList]).getD 3978
    ∧ extractAuthPort (some "port 99999") = 3978 := by
  constructor
  · rw [extractAuthPort_some]
    simp [atkPortMatchers, scanList_eq_findFirstMatch]
  · rfl

/-- Claim C10: each pattern contributes only its first (leftmost) match:
when the first `localhost:(\d+)` match captures an out-of-range number, the
loop moves on to the remaining three patterns, ignoring any later in-range
`localhost:` occurrence; in particular
`localhost:99999 then localhost:4321` yields 3978, not 4321. -/
theorem extractAuthPort_ignores_later_occurrences (s : String) (ds : List Char)
    (h1 : scanList localhostHere s.toList = some ds)
    (h2 : portInRange (digitsToNat ds) = false) :
    extractAuthPort (some s) = goPatterns s.toList [loopbackHere, portWordHere, serverHere]
    ∧ extractAuthPort (some "localhost:99999 then localhost:4321") = 3978 := by
  constructor
  · obtain ⟨l⟩ := s
    cases l with
    | nil =>
      have hnone : scanList localhostHere ((String.mk ([] : List Char)).toList) = none := rfl
      rw [hnone] at h1
      exact Option.noConfusion h1
    | cons c cs =>
      have h1c : scanList localhostHere (c :: cs) = some ds := h1
      show goPatterns (c :: cs) atkPortMatchers = _
      simp [atkPortMatchers, goPatterns, h1c, h2, String.toList]
  · rfl

theorem extractAuthPort_ignores_later_occurrences_witness :
    extractAuthPort (some "localhost:99999 then localhost:4321") =
      goPatterns ("localhost:99999 then localhost:4321".toList)
        [loopbackHere, portWordHere, serverHere]
    ∧ extractAuthPort (some "localhost:99999 then localhost:4321") = 3978 :=
  extractAuthPort_ignores_later_occurrences "localhost:99999 then localhost:4321"
    ("99999".toList) (by decide) (by decide)

/-- Claim C7: empty and null inputs give the default port 3978 and no OAuth
URL. -/
theorem empty_and_null_inputs :
    extractAuthPort (some "") = 3978 ∧ extractAuthPort none = 3978
    ∧ extractOAuthUrl (some "") = none ∧ extractOAuthUrl none = none := by
  decide

/-- Claim C3: on the fixed sample log text, the scanner extracts exactly the
OAuth authorize URL and port 3978. -/
theorem scanner_end_to_end_sample :
    extractOAuthUrl (some ("Listening on http://localhost:3978\nVisit https://login.microsoftonline.com/common/oauth2/v2.0/authorize?client_id=abc to continue")) =
      some "https://login.microsoftonline.com/common/oauth2/v2.0/authorize?client_id=abc"
    ∧ extractAuthPort (some ("Listening on http://localhost:3978\nVisit https://login.microsoftonline.com/common/oauth2/v2.0/authorize?client_id=abc to continue")) = 3978 :=
  ⟨rfl, rfl⟩

/-! ### Characterizing the URL matchers -/

theorem dropWhile_head?_false {p : Char → Bool} :
    ∀ (l : List Char) (c : Char), (l.dropWhile p).head? = some c → p c = false := by
  intro l
  induction l with
  | nil => intro c h; cases h
  | cons a as ih =>
    intro c h
    cases hp : p a with
    | true =>
      rw [List.dropWhile_cons, hp] at h
      exact ih c (by simpa using h)
    | false =>
      rw [List.dropWhile_cons, hp] at h
      simp at h
      subst h
      exact hp

theorem drop_takeWhile_length {p : Char → Bool} :
    ∀ l : List Char, l.drop (l.takeWhile p).length = l.dropWhile p := by
  intro l
  induction l with
  | nil => rfl
  | cons a as ih =>
    cases hp : p a with
    | true => simp [List.takeWhile_cons, List.dropWhile_cons, hp, ih]
    | false => simp [List.takeWhile_cons, List.dropWhile_cons, hp]

theorem takeWhile_eq_token {p : Char → Bool} :
    ∀ (tok rest : List Char), (∀ c ∈ tok, p c = true) →
      (∀ c, rest.head? = some c → p c = false) →
      (tok ++ rest).takeWhile p = tok := by
  intro tok
  induction tok with
  | nil =>
    intro rest _ hrest
    cases rest with
    | nil => rfl
    | cons r rs =>
      have hr := hrest r rfl
      simp [List.takeWhile_cons, hr]
  | cons a as ih =>
    intro rest hall hrest
    have ha := hall a (by simp)
    simp only [List.cons_append, List.takeWhile_cons, ha, if_true]
    rw [ih rest (fun c hc => hall c (by simp [hc])) hrest]

theorem containsSeq_correct (pat : List Char) :
    ∀ l, containsSeq pat l = true ↔ pat <:+: l := by
  intro l
  induction l with
  | nil =>
    show pat.isPrefixOf [] = true ↔ _
    rw [List.isPrefixOf_iff_prefix]
    constructor
    · intro h
      exact h.isInfix
    · intro h
      have : pat = [] := List.eq_nil_of_infix_nil h
      simp [this]
  | cons c cs ih =>
    show (pat.isPrefixOf (c :: cs) || containsSeq pat cs) = true ↔ _
    rw [Bool.or_eq_true, List.isPrefixOf_iff_prefix, ih, List.infix_cons_iff]

theorem take_prefixToken (pre l : List Char) (pnw : Char → Bool) (hp : pre <+: l) :
    l.take (pre ++ (l.drop pre.length).takeWhile pnw).length
      = pre ++ (l.drop pre.length).takeWhile pnw := by
  obtain ⟨t, ht⟩ := hp
  subst ht
  rw [List.drop_left]
  have hsub : pre ++ t.takeWhile pnw <+: pre ++ t := by
    obtain ⟨r, hr⟩ := List.takeWhile_prefix pnw (l := t)
    exact ⟨r, by rw [List.append_assoc, hr]⟩
  exact (List.prefix_iff_eq_take.mp hsub).symm

theorem next_after_prefixToken (pre l : List Char) (pnw : Char → Bool) (hp : pre <+: l) :
    ∀ c, (l.drop (pre ++ (l.drop pre.length).takeWhile pnw).length).head? = some c →
      pnw c = false := by
  obtain ⟨t, ht⟩ := hp
  subst ht
  rw [List.drop_left]
  intro c hc
  rw [List.length_append, List.drop_append, drop_takeWhile_length] at hc
  exact dropWhile_head?_false t c hc

theorem oauthPrimaryHere_iff (l m : List Char) :
    oauthPrimaryHere l = some m ↔
      ∃ tok, tok ≠ [] ∧ (∀ c ∈ tok, isJsWs c = false) ∧
        m = loginHostChars ++ tok ∧ l.take m.length = m ∧
        ∀ c, (l.drop m.length).head? = some c → isJsWs c = true := by
  constructor
  · intro h
    unfold oauthPrimaryHere at h
    split at h
    next hp =>
      split at h
      next => exact absurd h (by simp)
      next hne =>
        injection h with hm
        refine ⟨(l.drop loginHostChars.length).takeWhile (fun c => !isJsWs c),
          ?_, ?_, hm.symm, ?_, ?_⟩
        · intro hnil
          exact hne (by rw [hnil]; rfl)
        · intro c hc
          have hmem := List.mem_takeWhile_imp hc
          simpa using hmem
        · rw [← hm]
          exact take_prefixToken loginHostChars l _ (List.isPrefixOf_iff_prefix.mp hp)
        · rw [← hm]
          intro c hc
          have hnw := next_after_prefixToken loginHostChars l (fun c => !isJsWs c)
            (List.isPrefixOf_iff_prefix.mp hp) c hc
          simpa using hnw
    next => exact absurd h (by simp)
  · rintro ⟨tok, hne, hws, hm, htake, hnext⟩
    subst hm
    obtain ⟨r, hr⟩ := List.prefix_iff_eq_take.mpr htake.symm
    have hl : l = loginHostChars ++ (tok ++ r) := by rw [← hr, List.append_assoc]
    have hp : loginHostChars.isPrefixOf l = true := by
      rw [List.isPrefixOf_iff_prefix, hl]
      exact List.prefix_append _ _
    have hrdrop : l.drop (loginHostChars ++ tok).length = r := by
      rw [← hr]
      exact List.drop_left _ _
    have hdrop : l.drop loginHostChars.length = tok ++ r := by
      rw [hl]
      exact List.drop_left _ _
    have htw : (tok ++ r).takeWhile (fun c => !isJsWs c) = tok := by
      apply takeWhile_eq_token
      · intro c hc
        simp [hws c hc]
      · intro c hc
        have hw := hnext c (by rw [hrdrop]; exact hc)
        simp [hw]
    have hie : tok.isEmpty = false := by
      cases tok with
      | nil => exact absurd rfl hne
      | cons a as => rfl
    unfold oauthPrimaryHere
    rw [if_pos hp, hdrop, htw, if_neg (by simp [hie])]

theorem oauthAltHere_iff (l m : List Char) :
    oauthAltHere l = some m ↔
      ∃ tok, ("login".toList) <:+: tok ∧ (∀ c ∈ tok, isJsWs c = false) ∧
        m = "https://".toList ++ tok ∧ l.take m.length = m ∧
        ∀ c, (l.drop m.length).head? = some c → isJsWs c = true := by
  constructor
  · intro h
    unfold oauthAltHere at h
    split at h
    next hp =>
      split at h
      next hcs =>
        injection h with hm
        refine ⟨(l.drop ("https://".toList).length).takeWhile (fun c => !isJsWs c),
          (containsSeq_correct _ _).mp hcs, ?_, hm.symm, ?_, ?_⟩
        · intro c hc
          have hmem := List.mem_takeWhile_imp hc
          simpa using hmem
        · rw [← hm]
          exact take_prefixToken ("https://".toList) l _ (List.isPrefixOf_iff_prefix.mp hp)
        · rw [← hm]
          intro c hc
          have hnw := next_after_prefixToken ("https://".toList) l (fun c => !isJsWs c)
            (List.isPrefixOf_iff_prefix.mp hp) c hc
          simpa using hnw
      next => exact absurd h (by simp)
    next => exact absurd h (by simp)
  · rintro ⟨tok, hlogin, hws, hm, htake, hnext⟩
    subst hm
    obtain ⟨r, hr⟩ := List.prefix_iff_eq_take.mpr htake.symm
    have hl : l = "https://".toList ++ (tok ++ r) := by rw [← hr, List.append_assoc]
    have hp : ("https://".toList).isPrefixOf l = true := by
      rw [List.isPrefixOf_iff_prefix, hl]
      exact List.prefix_append _ _
    have hrdrop : l.drop ("https://".toList ++ tok).length = r := by
      rw [← hr]
      exact List.drop_left _ _
    have hdrop : l.drop ("https://".toList).length = tok ++ r := by
      rw [hl]
      exact List.drop_left _ _
    have htw : (tok ++ r).takeWhile (fun c => !isJsWs c) = tok := by
      apply takeWhile_eq_token
      · intro c hc
        simp [hws c hc]
      · intro c hc
        have hw := hnext c (by rw [hrdrop]; exact hc)
        simp [hw]
    unfold oauthAltHere
    rw [if_pos hp, hdrop, htw, if_pos ((containsSeq_correct _ _).mpr hlogin)]

theorem extractOAuthUrl_some (s : String) :
    extractOAuthUrl (some s) =
      ((scanList oauthPrimaryHere s.toList).orElse
        (fun _ => scanList oauthAltHere s.toList)).map String.mk := by
  obtain ⟨l⟩ := s
  cases l with
  | nil => rfl
  | cons c cs =>
    show (match scanList oauthPrimaryHere (c :: cs) with
      | some m => some (String.mk m)
      | none => match scanList oauthAltHere (c :: cs) with
        | some m => some (String.mk m)
        | none => none) = _
    cases h1 : scanList oauthPrimaryHere (c :: cs) with
    | some m1 => simp [Option.orElse, h1]
    | none =>
      cases h2 : scanList oauthAltHere (c :: cs) with
      | some m2 => simp [Option.orElse, h1, h2]
      | none => simp [Option.orElse, h1, h2]

/-- Claim C2: `extractOAuthUrl` returns the leftmost match of the primary
pattern (host prefix `https://login.microsoftonline.com/` extended over the
following non-whitespace run, which must be nonempty) when one exists, else
the leftmost whitespace-free `https://` run containing `login`, else `none`
(also on null input); absence is an ordinary `none` value.  The last two
conjuncts characterize the matchers declaratively: the match is a prefix of
the scanned suffix, its token carries no whitespace, and it extends
maximally (the character following the match, if any, is whitespace). -/
theorem extractOAuthUrl_priority (s : String) :
    extractOAuthUrl (some s) =
      ((findFirstMatch oauthPrimaryHere s.toList).orElse
        (fun _ => findFirstMatch oauthAltHere s.toList)).map String.mk
    ∧ extractOAuthUrl none = none
    ∧ (∀ l m, oauthPrimaryHere l = some m ↔
        ∃ tok, tok ≠ [] ∧ (∀ c ∈ tok, isJsWs c = false) ∧
          m = loginHostChars ++ tok ∧ l.take m.length = m ∧
          ∀ c, (l.drop m.length).head? = some c → isJsWs c = true)
    ∧ (∀ l m, oauthAltHere l = some m ↔
        ∃ tok, ("login".toList) <:+: tok ∧ (∀ c ∈ tok, isJsWs c = false) ∧
          m = "https://".toList ++ tok ∧ l.take m.length = m ∧
          ∀ c, (l.drop m.length).head? = some c → isJsWs c = true) := by
  refine ⟨?_, rfl, oauthPrimaryHere_iff, oauthAltHere_iff⟩
  rw [extractOAuthUrl_some, scanList_eq_findFirstMatch, scanList_eq_findFirstMatch]

/-- Claim C4, as stated, fails at the environment assignment that sets the
codespace-name variable to the empty string: JavaScript truthiness treats it
as unset and the code falls through to the localhost fallback instead of
producing the `app.github.dev` form. -/
theorem generatePortForwardingUrl_empty_name :
    generatePortForwardingUrl ⟨some "", none⟩ 3978 = "http://localhost:3978"
    ∧ generatePortForwardingUrl ⟨some "", none⟩ 3978 ≠ "https://-3978.app.github.dev" := by
  constructor
  · rfl
  · decide

/-- Claim C4 amended: for every port and environment, the result is
`https://<name>-<port>.app.github.dev` when the codespace-name variable is
set to a nonempty string (taking precedence over the domain variable), else
`https://<domain>-<port>.githubpreview.dev` when the port-forwarding-domain
variable is set to a nonempty string, else `http://localhost:<port>`; in
particular codespace name `foo` with port 3978 gives
`https://foo-3978.app.github.dev` and no variables give
`http://localhost:3978`. -/
theorem generatePortForwardingUrl_cases (env : AtkEnv) (port : Nat) :
    (jsTruthy env.codespaceName = true →
      generatePortForwardingUrl env port =
        "https://" ++ env.codespaceName.getD "" ++ "-" ++ toString port ++ ".app.github.dev")
    ∧ (jsTruthy env.codespaceName = false → jsTruthy env.portForwardingDomain = true →
      generatePortForwardingUrl env port =
        "https://" ++ env.portForwardingDomain.getD "" ++ "-" ++ toString port
          ++ ".githubpreview.dev")
    ∧ (jsTruthy env.codespaceName = false → jsTruthy env.portForwardingDomain = false →
      generatePortForwardingUrl env port = "http://localhost:" ++ toString port)
    ∧ generatePortForwardingUrl ⟨some "foo", none⟩ 3978 = "https://foo-3978.app.github.dev"
    ∧ generatePortForwardingUrl ⟨none, none⟩ 3978 = "http://localhost:3978" := by
  refine ⟨fun h1 => ?_, fun h1 h2 => ?_, fun h1 h2 => ?_, rfl, rfl⟩
  · simp [generatePortForwardingUrl, h1]
  · simp [generatePortForwardingUrl, h1, h2]
  · simp [generatePortForwardingUrl, h1, h2]

theorem generatePortForwardingUrl_cases_witness :
    generatePortForwardingUrl ⟨some "foo", some "dom"⟩ 3978 = "https://foo-3978.app.github.dev"
    ∧ generatePortForwardingUrl ⟨none, some "dom"⟩ 3978 = "https://dom-3978.githubpreview.dev"
    ∧ generatePortForwardingUrl ⟨none, none⟩ 3978 = "http://localhost:3978" :=
  ⟨(generatePortForwardingUrl_cases ⟨some "foo", some "dom"⟩ 3978).1 (by decide),
   (generatePortForwardingUrl_cases ⟨none, some "dom"⟩ 3978).2.1 (by decide) (by decide),
   (generatePortForwardingUrl_cases ⟨none, none⟩ 3978).2.2.1 (by decide) (by decide)⟩

/-- Claim C5, as stated, is false for `executeCommandStreaming`: a spawn
error is propagated to the caller as a REJECTED promise (the `error`
handler calls `reject`), not captured as a normally-returned result. -/
theorem executeCommandStreaming_spawn_error_rejects :
    executeCommandStreaming (.errored "spawn sh ENOENT" [] []) =
      .error { success := false, stdout := "", stderr := "spawn sh ENOENT", exitCode := some 1 }
    ∧ isResolved (executeCommandStreaming (.errored "spawn sh ENOENT" [] [])) = false :=
  ⟨rfl, rfl⟩

/-- Claim C5 amended: `executeCommand` captures every failure as a normal
`success := false` result whose stderr is the available stderr or, when that
is absent or empty, the error message; `executeCommandStreaming` resolves
non-zero exits normally with `success := false`, but propagates a spawn
error as a rejected promise. -/
theorem commandFailure_capture (msg : String) (out? err? : Option String)
    (code? : Option Int) (code : Option Int) (outs errs : List String)
    (hc : code ≠ some 0) :
    (executeCommand (.failed msg out? err? code?)).success = false
    ∧ (executeCommand (.failed msg out? err? code?)).stderr = jsOrStr err? msg
    ∧ (err? = none → (executeCommand (.failed msg out? err? code?)).stderr = msg)
    ∧ (∃ r, executeCommandStreaming (.closed code outs errs) = .ok r ∧ r.success = false)
    ∧ isResolved (executeCommandStreaming (.errored msg outs errs)) = false := by
  refine ⟨rfl, rfl, ?_, ⟨_, rfl, ?_⟩, rfl⟩
  · intro h
    subst h
    rfl
  · show decide (code = some 0) = false
    exact decide_eq_false hc

theorem commandFailure_capture_witness :
    (executeCommand (.failed "boom" none none none)).success = false
    ∧ isResolved (executeCommandStreaming (.errored "boom" [] [])) = false :=
  ⟨(commandFailure_capture "boom" none none none (some 2) [] [] (by decide)).1,
   (commandFailure_capture "boom" none none none (some 2) [] [] (by decide)).2.2.2.2⟩

/-- Claim C8: the streaming executor resolves exactly on the child exit
event, carrying the exit code, trimmed accumulated stdout and stderr, and
`success` true iff the exit code is 0; the only other terminal event (a
spawn error) does not resolve. -/
theorem executeCommandStreaming_resolution (code : Option Int) (outs errs : List String) :
    (∃ r, executeCommandStreaming (.closed code outs errs) = .ok r
      ∧ r.exitCode = code
      ∧ r.stdout = jsTrim (String.join outs)
      ∧ r.stderr = jsTrim (String.join errs)
      ∧ (r.success = true ↔ code = some 0))
    ∧ (∀ msg, isResolved (executeCommandStreaming (.errored msg outs errs)) = false) := by
  refine ⟨⟨_, rfl, rfl, rfl, rfl, ?_⟩, fun msg => rfl⟩
  show decide (code = some 0) = true ↔ code = some 0
  exact decide_eq_true_iff

/-- Claim C6, as stated, is false: in a run where the auth log is read
successfully but holds no OAuth URL, the copy at source line 341 is inside
`if (oauthUrl)` and never runs, so no archival copy is made. -/
theorem authLogStep_read_without_copy :
    authLogStep ⟨none, none⟩ "/workspaces/m365-test/logs" "2026-10-11T00:00:00.000Z"
      (.ok "atk auth starting") = .noUrlFound 3978 := rfl

/-- Claim C6 amended: in every run in which the auth log is read
successfully AND an OAuth URL is extracted, the log is archived at the path
embedding the run timestamp with every colon and period replaced by a
hyphen; the sanitized timestamp contains no colon or period and keeps the
original length. -/
theorem authLogStep_archives_on_url (env : AtkEnv) (logsPath ts content u : String)
    (h : extractOAuthUrl (some content) = some u) :
    authLogStep env logsPath ts (.ok content) =
      .extracted u (extractAuthPort (some content))
        (generatePortForwardingUrl env (extractAuthPort (some content)))
        (logsPath ++ "/auth-" ++ sanitizeTimestamp ts ++ ".log")
    ∧ (∀ c ∈ (sanitizeTimestamp ts).toList, c ≠ ':' ∧ c ≠ '.')
    ∧ (sanitizeTimestamp ts).toList.length = ts.toList.length := by
  refine ⟨?_, ?_, ?_⟩
  · simp [authLogStep, h, archiveLogPath]
  · intro c hc
    have hc2 : c ∈ ts.toList.map (fun c => if c = ':' || c = '.' then '-' else c) := hc
    rcases List.mem_map.mp hc2 with ⟨a, _, hfa⟩
    by_cases hsp : (a = ':' || a = '.') = true
    · rw [← hfa]
      simp [hsp]
    · rw [← hfa]
      simp only [hsp, if_false]
      simpa using hsp
  · show (ts.toList.map (fun c => if c = ':' || c = '.' then '-' else c)).length = ts.toList.length
    exact List.length_map _ _

theorem authLogStep_archives_on_url_witness :
    authLogStep ⟨none, none⟩ "/workspaces/m365-test/logs" "2026-10-11T12:34:56.789Z"
      (.ok "Visit https://login.microsoftonline.com/common/oauth2/v2.0/authorize?client_id=abc now") =
      .extracted "https://login.microsoftonline.com/common/oauth2/v2.0/authorize?client_id=abc"
        3978 "http://localhost:3978"
        "/workspaces/m365-test/logs/auth-2026-10-11T12-34-56-789Z.log" :=
  (authLogStep_archives_on_url ⟨none, none⟩ "/workspaces/m365-test/logs"
    "2026-10-11T12:34:56.789Z"
    "Visit https://login.microsoftonline.com/common/oauth2/v2.0/authorize?client_id=abc now"
    "https://login.microsoftonline.com/common/oauth2/v2.0/authorize?client_id=abc"
    (by decide)).1
